import Mathlib

/-!
Verification development for the prompt-tuner dynamic-form repository.

The JavaScript values that can live in the form-data store are embedded as
`JVal` (JSON-like trees).  Numbers are modelled as integers: none of the
operations verified here computes with fractional values, and floating point
is outside the embedding.  `undefined` is modelled as the absence of an entry,
i.e. `Option.none` at lookup sites; JavaScript objects are association lists
in insertion order.  Each `DataManager` method from
`src/assets/js/data-manager.js` is translated statement by statement; methods
that can raise a `TypeError` or `throw` in the source return `Option` /
`Except`.  The `saveToStorage` / `console.log` side effects are outside the
store and are dropped.
-/

/-- A JavaScript/JSON value as stored in the form-data store. -/
inductive JVal : Type where
  | null : JVal
  | bool : Bool → JVal
  | num : Int → JVal
  | str : String → JVal
  | arr : List JVal → JVal
  | obj : List (String × JVal) → JVal

/-- JavaScript truthiness of a value (`NaN` is outside the integer model). -/
def JVal.truthy : JVal → Bool
  | .null => false
  | .bool b => b
  | .num n => n != 0
  | .str s => s != ""
  | .arr _ => true
  | .obj _ => true

/-- JavaScript truthiness of a possibly-`undefined` value (`undefined` is falsy). -/
def truthyOpt : Option JVal → Bool
  | some v => v.truthy
  | none => false

/-- `typeof v === 'object'` in JavaScript: `null` and arrays are `'object'` too. -/
def JVal.isObjType : JVal → Bool
  | .obj _ => true
  | .arr _ => true
  | .null => true
  | _ => false

/-- First-match lookup in an association list (a JavaScript object's property read). -/
def lookupField : List (String × JVal) → String → Option JVal
  | [], _ => none
  | (k, v) :: fs, key => if k = key then some v else lookupField fs key

/-- Property write on an association list: rebind the first occurrence of the
key in place, or append a new binding (JavaScript objects keep the original
insertion position when an existing property is re-assigned). -/
def setField : List (String × JVal) → String → JVal → List (String × JVal)
  | [], key, v => [(key, v)]
  | (k, w) :: fs, key, v => if k = key then (k, v) :: fs else (k, w) :: setField fs key v

/-- Property read `v[key]`: non-objects have no modelled properties, the read
yields `undefined`. -/
def jget : JVal → String → Option JVal
  | .obj fs, key => lookupField fs key
  | _, _ => none

/-- Property write `v[key] = x`.  On a non-object carrier the write is dropped,
matching sloppy-mode JavaScript silently ignoring writes to primitives (array
carriers do not occur at the write sites modelled here). -/
def jset : JVal → String → JVal → JVal
  | .obj fs, key, x => .obj (setField fs key x)
  | v, _, _ => v

/-- The `DataManager.formData` top-level object: schema name ↦ value tree. -/
abbrev Store := List (String × JVal)

/-- The value stored at `formData[schema][field]`, if any. -/
def fieldVal (st : Store) (schema field : String) : Option JVal :=
  (lookupField st schema).bind (fun sv => jget sv field)

/-- Well-formedness of one store slot: a truthy entry for the schema is an
object.  Every store reachable through the manager's own operations satisfies
this; a truthy non-object entry would make the JavaScript throw on the first
nested property access. -/
def SchemaSlotOk (st : Store) (schema : String) : Prop :=
  ∀ sv, lookupField st schema = some sv → sv.truthy = true → ∃ fs, sv = JVal.obj fs

/-- Indexed spread of an array, `{...someArray}` style: keys are decimal indices. -/
def spreadIdx (i : Nat) : List JVal → List (String × JVal)
  | [] => []
  | x :: xs => (toString i, x) :: spreadIdx (i + 1) xs

/-- Indexed spread of a string: one single-character string per index. -/
def spreadChars (i : Nat) : List Char → List (String × JVal)
  | [] => []
  | c :: cs => (toString i, JVal.str (String.mk [c])) :: spreadChars (i + 1) cs

/-- JavaScript object spread `{...v}` as an association list: objects keep
their own entries, arrays and strings contribute index-keyed entries, and
other primitives (and `null`) contribute nothing. -/
def spread : JVal → List (String × JVal)
  | .obj fs => fs
  | .arr xs => spreadIdx 0 xs
  | .str s => spreadChars 0 s.data
  | _ => []

/-- `{ ...(x || {}) }`: spread of a possibly-absent, possibly-falsy value. -/
def spreadOrEmpty (x : Option JVal) : List (String × JVal) :=
  match x with
  | some v => if v.truthy then spread v else []
  | none => []

/-- `DataManager.updateFormData(currentSchema, fieldName, value)`. -/
def updateFormData (st : Store) (schema field : String) (v : JVal) : Store :=
  let st1 := if truthyOpt (lookupField st schema) then st else setField st schema (.obj [])
  match lookupField st1 schema with
  | some sv => setField st1 schema (jset sv field v)
  | none => st1

/-- `DataManager.getFormDataForSchema(currentSchema)`: `this.formData[s] || {}`. -/
def getFormDataForSchema (st : Store) (schema : String) : JVal :=
  match lookupField st schema with
  | some v => if v.truthy then v else .obj []
  | none => .obj []

/-- `DataManager.initializeUnionFormData(currentSchema, fieldName, schema)`:
re-seed the union slot with the variant schema's `default_values` unless it
already holds a truthy value of `typeof 'object'`. -/
def initializeUnionFormData (st : Store) (schema field : String) (sch : JVal) : Store :=
  let st1 := if truthyOpt (lookupField st schema) then st else setField st schema (.obj [])
  match lookupField st1 schema with
  | some sv =>
    if (match jget sv field with
        | some v => v.truthy && v.isObjType
        | none => false) then st1
    else setField st1 schema (jset sv field (.obj (spreadOrEmpty (jget sch "default_values"))))
  | none => st1

/-- `DataManager.updateUnionFieldData(currentSchema, parentFieldName, propName,
value)`; `none` models the `TypeError` raised when the parent slot is still
`undefined` after the guards (only possible for a truthy non-object schema
entry, on which the guard's write is dropped). -/
def updateUnionFieldData (st : Store) (schema parent prop : String) (v : JVal) : Option Store :=
  let st1 := if truthyOpt (lookupField st schema) then st else setField st schema (.obj [])
  let sv1 := (lookupField st1 schema).getD (.obj [])
  let st2 := if truthyOpt (jget sv1 parent) then st1
             else setField st1 schema (jset sv1 parent (.obj []))
  match lookupField st2 schema with
  | some sv2 =>
    match jget sv2 parent with
    | some pv => some (setField st2 schema (jset sv2 parent (jset pv prop v)))
    | none => none
  | none => none

/-- `DataManager.addArrayItem(currentSchema, fieldName, itemData)`: returns the
updated store and the fresh item's index.  `none` models the `TypeError` from
`.push` / `.length` when the slot holds a truthy non-array. -/
def addArrayItem (st : Store) (schema field : String) (item : JVal) : Option (Store × Nat) :=
  let st1 := if truthyOpt (lookupField st schema) then st else setField st schema (.obj [])
  let sv1 := (lookupField st1 schema).getD (.obj [])
  let st2 := if truthyOpt (jget sv1 field) then st1
             else setField st1 schema (jset sv1 field (.arr []))
  match lookupField st2 schema with
  | some sv2 =>
    match jget sv2 field with
    | some (.arr xs) =>
      some (setField st2 schema (jset sv2 field (.arr (xs ++ [item]))), xs.length)
    | _ => none
  | none => none

/-- `DataManager.removeArrayItem(currentSchema, fieldName, itemIndex)`:
`splice(i, 1)` behind a truthiness guard on `formData[schema]?.[field]`.
`none` models the `TypeError` from `.splice` on a truthy non-array slot. -/
def removeArrayItem (st : Store) (schema field : String) (i : Nat) : Option Store :=
  match lookupField st schema with
  | some sv =>
    match jget sv field with
    | some fv =>
      if fv.truthy then
        match fv with
        | .arr xs => some (setField st schema (jset sv field (.arr (xs.eraseIdx i))))
        | _ => none
      else some st
    | none => some st
  | none => some st

/-! ### Association-list lemmas -/

theorem lookupField_setField_self (fs : List (String × JVal)) (k : String) (v : JVal) :
    lookupField (setField fs k v) k = some v := by
  induction fs with
  | nil => simp [setField, lookupField]
  | cons p fs ih =>
    obtain ⟨k', w⟩ := p
    by_cases h : k' = k
    · simp [setField, h, lookupField]
    · simp [setField, h, lookupField, ih]

theorem lookupField_setField_ne (fs : List (String × JVal)) (k k' : String) (v : JVal)
    (h : k' ≠ k) : lookupField (setField fs k v) k' = lookupField fs k' := by
  have hkk : ¬ k = k' := fun e => h e.symm
  induction fs with
  | nil => simp [setField, lookupField, hkk]
  | cons p fs ih =>
    obtain ⟨k0, w⟩ := p
    by_cases h0 : k0 = k
    · subst h0
      simp [setField, lookupField, hkk]
    · simp [setField, h0, lookupField, ih]

theorem setField_self (fs : List (String × JVal)) (k : String) (v : JVal)
    (h : lookupField fs k = some v) : setField fs k v = fs := by
  induction fs with
  | nil => simp [lookupField] at h
  | cons p fs ih =>
    obtain ⟨k0, w⟩ := p
    by_cases h0 : k0 = k
    · subst h0
      simp [lookupField] at h
      simp [setField, h]
    · simp [lookupField, h0] at h
      simp [setField, h0, ih h]

/-- A slot with a stored property is an object holding that property. -/
theorem jget_some_obj {sv : JVal} {f : String} {v : JVal} (h : jget sv f = some v) :
    ∃ fs, sv = JVal.obj fs ∧ lookupField fs f = some v := by
  cases sv
  case obj fs => exact ⟨fs, rfl, h⟩
  all_goals simp [jget] at h

@[simp] theorem truthy_obj (fs : List (String × JVal)) : (JVal.obj fs).truthy = true := rfl

@[simp] theorem truthy_arr (xs : List JVal) : (JVal.arr xs).truthy = true := rfl

@[simp] theorem truthyOpt_none : truthyOpt none = false := rfl

@[simp] theorem truthyOpt_some (v : JVal) : truthyOpt (some v) = v.truthy := rfl

@[simp] theorem jget_obj (fs : List (String × JVal)) (k : String) :
    jget (JVal.obj fs) k = lookupField fs k := rfl

@[simp] theorem jset_obj (fs : List (String × JVal)) (k : String) (x : JVal) :
    jset (JVal.obj fs) k x = JVal.obj (setField fs k x) := rfl

@[simp] theorem setField_nil (k : String) (v : JVal) : setField [] k v = [(k, v)] := rfl

@[simp] theorem isObjType_str (s : String) : (JVal.str s).isObjType = false := rfl

/-! ### Claims about the array operations and schema reads (C1, C2, C7, C10) -/

/-- C7: reading the form-data tree for a schema name with no entry in the
store yields the empty object `{}` rather than failing or yielding
`undefined`. -/
theorem getFormData_unknown_schema (st : Store) (schema : String)
    (h : lookupField st schema = none) : getFormDataForSchema st schema = .obj [] := by
  simp [getFormDataForSchema, h]

theorem getFormData_unknown_schema_witness :
    getFormDataForSchema [("other", JVal.num 1)] "missing" = JVal.obj [] :=
  getFormData_unknown_schema [("other", JVal.num 1)] "missing" rfl

/-- C1: removing a valid index from a stored array drops exactly that
element: the operation succeeds, the length decreases by exactly one, items
at earlier indices are unchanged, and every later item shifts down by one
position, leaving no gaps. -/
theorem removeArrayItem_in_domain (st : Store) (schema field : String)
    (xs : List JVal) (i : Nat)
    (hf : fieldVal st schema field = some (.arr xs)) (hi : i < xs.length) :
    ∃ st', removeArrayItem st schema field i = some st' ∧
      fieldVal st' schema field = some (.arr (xs.eraseIdx i)) ∧
      (xs.eraseIdx i).length + 1 = xs.length ∧
      (∀ j, j < i → (xs.eraseIdx i)[j]? = xs[j]?) ∧
      (∀ j, i ≤ j → (xs.eraseIdx i)[j]? = xs[j + 1]?) := by
  obtain ⟨sv, hs, hjf⟩ := Option.bind_eq_some.mp hf
  obtain ⟨fs, rfl, hlk⟩ := jget_some_obj hjf
  have hrun : removeArrayItem st schema field i
      = some (setField st schema (JVal.obj (setField fs field (JVal.arr (xs.eraseIdx i))))) := by
    simp [removeArrayItem, hs, hjf, JVal.truthy, jset]
  refine ⟨_, hrun, ?_, ?_, ?_, ?_⟩
  · simp [fieldVal, lookupField_setField_self, jget, jset]
  · have := List.length_eraseIdx_of_lt hi
    omega
  · exact fun j hj => List.getElem?_eraseIdx_of_lt xs i j hj
  · exact fun j hj => List.getElem?_eraseIdx_of_ge xs i j hj

theorem removeArrayItem_in_domain_witness :
    ∃ st', removeArrayItem [("wf", JVal.obj [("items", JVal.arr [JVal.num 7, JVal.num 8])])]
        "wf" "items" 0 = some st' ∧
      fieldVal st' "wf" "items" = some (.arr ([JVal.num 7, JVal.num 8].eraseIdx 0)) ∧
      ([JVal.num 7, JVal.num 8].eraseIdx 0).length + 1 = [JVal.num 7, JVal.num 8].length ∧
      (∀ j, j < 0 → ([JVal.num 7, JVal.num 8].eraseIdx 0)[j]? = [JVal.num 7, JVal.num 8][j]?) ∧
      (∀ j, 0 ≤ j → ([JVal.num 7, JVal.num 8].eraseIdx 0)[j]? = [JVal.num 7, JVal.num 8][j + 1]?) :=
  removeArrayItem_in_domain _ "wf" "items" [JVal.num 7, JVal.num 8] 0 rfl (by simp)

/-- C10: outside its domain — schema entry absent, field absent, or index at
or beyond the stored array's length — `removeArrayItem` returns the store
unchanged. -/
theorem removeArrayItem_out_of_domain (st : Store) (schema field : String) (i : Nat)
    (h : lookupField st schema = none
       ∨ (∃ sv, lookupField st schema = some sv ∧ jget sv field = none)
       ∨ (∃ xs, fieldVal st schema field = some (.arr xs) ∧ xs.length ≤ i)) :
    removeArrayItem st schema field i = some st := by
  rcases h with h | ⟨sv, hs, hjf⟩ | ⟨xs, hf, hlen⟩
  · simp [removeArrayItem, h]
  · simp [removeArrayItem, hs, hjf]
  · obtain ⟨sv, hs, hjf⟩ := Option.bind_eq_some.mp hf
    obtain ⟨fs, rfl, hlk⟩ := jget_some_obj hjf
    have he : xs.eraseIdx i = xs := List.eraseIdx_of_length_le hlen
    simp only [removeArrayItem, hs, hjf, JVal.truthy, he, jset, if_true]
    rw [setField_self fs field (.arr xs) hlk, setField_self st schema (.obj fs) hs]

theorem removeArrayItem_out_of_domain_witness :
    removeArrayItem [("wf", JVal.obj [("items", JVal.arr [JVal.num 7])])] "wf" "items" 5
      = some [("wf", JVal.obj [("items", JVal.arr [JVal.num 7])])] :=
  removeArrayItem_out_of_domain _ "wf" "items" 5
    (Or.inr (Or.inr ⟨[JVal.num 7], rfl, by simp⟩))

/-- C2: appending an array item pushes it onto the stored array — creating an
empty array first when the field has no stored value — making the array one
longer and returning the array's previous length, the new item's index. -/
theorem addArrayItem_appends (st : Store) (schema field : String) (item : JVal) :
    (∀ xs, fieldVal st schema field = some (.arr xs) →
      ∃ st', addArrayItem st schema field item = some (st', xs.length) ∧
        fieldVal st' schema field = some (.arr (xs ++ [item])) ∧
        (xs ++ [item]).length = xs.length + 1) ∧
    (SchemaSlotOk st schema → fieldVal st schema field = none →
      ∃ st', addArrayItem st schema field item = some (st', 0) ∧
        fieldVal st' schema field = some (.arr [item])) := by
  constructor
  · intro xs hf
    obtain ⟨sv, hs, hjf⟩ := Option.bind_eq_some.mp hf
    obtain ⟨fs, rfl, hlk⟩ := jget_some_obj hjf
    have hrun : addArrayItem st schema field item
        = some (setField st schema (JVal.obj (setField fs field (JVal.arr (xs ++ [item])))),
            xs.length) := by
      simp [addArrayItem, hs, hjf, truthyOpt, JVal.truthy, jset]
    refine ⟨_, hrun, ?_, by simp⟩
    simp [fieldVal, lookupField_setField_self, jget, jset]
  · intro hok hf
    cases hs : lookupField st schema with
    | none =>
      have hrun : addArrayItem st schema field item
          = some (setField (setField (setField st schema (JVal.obj []))
              schema (JVal.obj [(field, JVal.arr [])]))
              schema (JVal.obj [(field, JVal.arr [item])]), 0) := by
        simp [addArrayItem, hs, truthyOpt, lookupField_setField_self, jget, jset,
          lookupField, setField]
      refine ⟨_, hrun, ?_⟩
      simp [fieldVal, lookupField_setField_self, jget, lookupField]
    | some sv =>
      by_cases htr : sv.truthy = true
      · obtain ⟨fs, rfl⟩ := hok sv hs htr
        have hlk : lookupField fs field = none := by
          have h0 := hf
          simp [fieldVal, hs, jget] at h0
          exact h0
        have hrun : addArrayItem st schema field item
            = some (setField (setField st schema (JVal.obj (setField fs field (JVal.arr []))))
                schema (JVal.obj (setField (setField fs field (JVal.arr []))
                  field (JVal.arr [item]))), 0) := by
          simp [addArrayItem, hs, htr, truthyOpt, jget, jset, hlk,
            lookupField_setField_self, JVal.truthy]
        refine ⟨_, hrun, ?_⟩
        simp [fieldVal, lookupField_setField_self, jget]
      · have htr' : sv.truthy = false := by
          cases hb : sv.truthy
          · rfl
          · exact absurd hb htr
        have hrun : addArrayItem st schema field item
            = some (setField (setField (setField st schema (JVal.obj []))
                schema (JVal.obj [(field, JVal.arr [])]))
                schema (JVal.obj [(field, JVal.arr [item])]), 0) := by
          simp [addArrayItem, hs, htr', truthyOpt, lookupField_setField_self, jget, jset,
            lookupField, setField]
        refine ⟨_, hrun, ?_⟩
        simp [fieldVal, lookupField_setField_self, jget, lookupField]

theorem addArrayItem_appends_witness :
    (∃ st', addArrayItem [("wf", JVal.obj [("items", JVal.arr [JVal.num 7])])]
        "wf" "items" (JVal.num 9) = some (st', [JVal.num 7].length) ∧
      fieldVal st' "wf" "items" = some (.arr ([JVal.num 7] ++ [JVal.num 9])) ∧
      ([JVal.num 7] ++ [JVal.num 9]).length = [JVal.num 7].length + 1) ∧
    (∃ st', addArrayItem ([] : Store) "wf" "items" (JVal.num 9) = some (st', 0) ∧
      fieldVal st' "wf" "items" = some (.arr [JVal.num 9])) := by
  constructor
  · exact (addArrayItem_appends [("wf", JVal.obj [("items", JVal.arr [JVal.num 7])])]
      "wf" "items" (JVal.num 9)).1 [JVal.num 7] rfl
  · exact (addArrayItem_appends ([] : Store) "wf" "items" (JVal.num 9)).2
      (fun sv h => by simp [lookupField] at h) rfl

/-! ### Union selection (C3)

`selectUnionOption` in `llm-form-test.js` records the chosen discriminator via
`updateFormData` and then lets `renderUnionFields` look up the variant's
sub-schema and call `initializeUnionFormData` on it; the DOM manipulation and
the cache lookups are abstracted into the `resolved` argument. -/

/-- `selectUnionOption(fieldName, value, element)` followed by
`renderUnionFields(fieldName, value)`, at the store level.  `resolved = none`
models the early-return error paths of `renderUnionFields` (missing cache
entry, unknown option, unresolvable schema), which bail out before
`initializeUnionFormData`. -/
def selectUnionOption (st : Store) (schema field : String) (value : String)
    (resolved : Option JVal) : Store :=
  let st1 := updateFormData st schema field (.str value)
  match resolved with
  | some sch => initializeUnionFormData st1 schema field sch
  | none => st1

/-- A user populating the currently selected variant: a sequence of
`updateUnionFieldData` writes under the union field. -/
def applyUnionUpdates (st : Store) (schema field : String) :
    List (String × JVal) → Option Store
  | [] => some st
  | (prop, v) :: ops =>
    match updateUnionFieldData st schema field prop v with
    | some st' => applyUnionUpdates st' schema field ops
    | none => none

/-- The slot for `schema` currently holds an object. -/
def ObjSlot (st : Store) (schema : String) : Prop :=
  ∃ fs, lookupField st schema = some (JVal.obj fs)

theorem ObjSlot.schemaSlotOk {st : Store} {schema : String} (h : ObjSlot st schema) :
    SchemaSlotOk st schema := by
  obtain ⟨fs, h⟩ := h
  intro sv hsv _
  rw [h] at hsv
  exact ⟨fs, (Option.some_inj.mp hsv).symm⟩

/-- `updateFormData` leaves the slot an object holding the written field. -/
theorem updateFormData_slot (st : Store) (schema field : String) (v : JVal)
    (hok : SchemaSlotOk st schema) :
    ∃ fs, lookupField (updateFormData st schema field v) schema = some (.obj fs) ∧
      lookupField fs field = some v := by
  cases hs : lookupField st schema with
  | none =>
    refine ⟨setField [] field v, ?_, lookupField_setField_self _ _ _⟩
    simp [updateFormData, hs, truthyOpt, lookupField_setField_self, jset]
  | some sv =>
    by_cases htr : sv.truthy = true
    · obtain ⟨fs0, rfl⟩ := hok sv hs htr
      refine ⟨setField fs0 field v, ?_, lookupField_setField_self _ _ _⟩
      simp [updateFormData, hs, htr, truthyOpt, lookupField_setField_self, jset]
    · rw [Bool.not_eq_true] at htr
      refine ⟨setField [] field v, ?_, lookupField_setField_self _ _ _⟩
      simp [updateFormData, hs, htr, truthyOpt, lookupField_setField_self, jset]

/-- `initializeUnionFormData` keeps the slot an object. -/
theorem initializeUnion_slot (st : Store) (schema field : String) (sch : JVal)
    (h : ObjSlot st schema) : ObjSlot (initializeUnionFormData st schema field sch) schema := by
  obtain ⟨fs, hs⟩ := h
  simp only [initializeUnionFormData, hs, truthyOpt_some, truthy_obj, if_true,
    jget_obj, jset_obj]
  split
  · exact ⟨fs, hs⟩
  · exact ⟨_, lookupField_setField_self _ _ _⟩

/-- On an object slot, `updateUnionFieldData` always succeeds and keeps the
slot an object. -/
theorem updateUnionFieldData_slot (st : Store) (schema parent prop : String) (v : JVal)
    (h : ObjSlot st schema) :
    ∃ st', updateUnionFieldData st schema parent prop v = some st' ∧ ObjSlot st' schema := by
  obtain ⟨fs, hs⟩ := h
  simp only [updateUnionFieldData, hs, truthyOpt_some, truthy_obj, if_true,
    Option.getD_some, jget_obj, jset_obj]
  cases hp : lookupField fs parent with
  | none =>
    simp only [hp, truthyOpt_none, Bool.false_eq_true, if_false,
      lookupField_setField_self, jget_obj, jset_obj]
    refine ⟨_, rfl, ?_⟩
    exact ⟨_, lookupField_setField_self _ _ _⟩
  | some pv =>
    cases htr : pv.truthy with
    | true =>
      simp only [hp, truthyOpt_some, htr, if_true, hs, jget_obj, jset_obj]
      refine ⟨_, rfl, ?_⟩
      exact ⟨_, lookupField_setField_self _ _ _⟩
    | false =>
      simp only [hp, truthyOpt_some, htr, Bool.false_eq_true, if_false,
        lookupField_setField_self, jget_obj, jset_obj]
      refine ⟨_, rfl, ?_⟩
      exact ⟨_, lookupField_setField_self _ _ _⟩

/-- Populating the selected variant never fails on an object slot and keeps it
an object. -/
theorem applyUnionUpdates_slot (schema field : String) :
    ∀ (ops : List (String × JVal)) (st : Store), ObjSlot st schema →
      ∃ st', applyUnionUpdates st schema field ops = some st' ∧ ObjSlot st' schema
  | [], st, h => ⟨st, rfl, h⟩
  | (prop, v) :: ops, st, h => by
    obtain ⟨st1, hrun, h1⟩ := updateUnionFieldData_slot st schema field prop v h
    obtain ⟨st', hrun', h'⟩ := applyUnionUpdates_slot schema field ops st1 h1
    exact ⟨st', by simp [applyUnionUpdates, hrun, hrun'], h'⟩

/-- Once `updateFormData` has stored the discriminator string in the union
slot, the initialiser unconditionally re-seeds the slot from the newly
selected variant's declared defaults. -/
theorem initializeUnion_after_string (st : Store) (schema field : String)
    (fs : List (String × JVal)) (s0 : String) (sch : JVal)
    (hs : lookupField st schema = some (JVal.obj fs))
    (hf : lookupField fs field = some (.str s0)) :
    fieldVal (initializeUnionFormData st schema field sch) schema field
      = some (.obj (spreadOrEmpty (jget sch "default_values"))) := by
  simp [initializeUnionFormData, hs, truthyOpt, JVal.truthy, jget, hf, JVal.isObjType,
    jset, fieldVal, lookupField_setField_self]

/-- C3: selecting variant A, populating its sub-tree, then selecting variant B
(whose sub-schema resolves) leaves the union slot holding exactly
`{...(B.default_values || {})}`: only B's declared default fields, and no
residual field of A's sub-schema beyond those keys — the slot holds at most
the newly selected variant's sub-tree. -/
theorem union_select_discards_previous (st : Store) (schema field : String)
    (vA : String) (sA : JVal) (ops : List (String × JVal)) (vB : String) (sB : JVal)
    (hok : SchemaSlotOk st schema) :
    ∃ st2, applyUnionUpdates (selectUnionOption st schema field vA (some sA))
        schema field ops = some st2 ∧
      fieldVal (selectUnionOption st2 schema field vB (some sB)) schema field
        = some (.obj (spreadOrEmpty (jget sB "default_values"))) ∧
      ∀ k, lookupField (spreadOrEmpty (jget sB "default_values")) k = none →
        (fieldVal (selectUnionOption st2 schema field vB (some sB)) schema field).bind
          (fun t => jget t k) = none := by
  have h0 : ObjSlot (selectUnionOption st schema field vA (some sA)) schema := by
    obtain ⟨fsA, hA, _⟩ := updateFormData_slot st schema field (.str vA) hok
    exact initializeUnion_slot _ schema field sA ⟨fsA, hA⟩
  obtain ⟨st2, hrun2, h2⟩ := applyUnionUpdates_slot schema field ops _ h0
  obtain ⟨fsB, hB, hBf⟩ := updateFormData_slot st2 schema field (.str vB) h2.schemaSlotOk
  have hfinal : fieldVal (selectUnionOption st2 schema field vB (some sB)) schema field
      = some (.obj (spreadOrEmpty (jget sB "default_values"))) :=
    initializeUnion_after_string _ schema field fsB vB sB hB hBf
  refine ⟨st2, hrun2, hfinal, ?_⟩
  intro k hk
  rw [hfinal]
  exact hk

theorem union_select_discards_previous_witness :
    ∃ st2, applyUnionUpdates (selectUnionOption [] "wf" "bike" "mountain"
        (some (JVal.obj [("default_values", JVal.obj [("wheels", JVal.num 2)])])))
        "wf" "bike" [("suspension", JVal.str "full")] = some st2 ∧
      fieldVal (selectUnionOption st2 "wf" "bike" "electric"
          (some (JVal.obj [("default_values", JVal.obj [("battery", JVal.num 500)])])))
        "wf" "bike"
        = some (.obj (spreadOrEmpty (jget
            (JVal.obj [("default_values", JVal.obj [("battery", JVal.num 500)])])
            "default_values"))) ∧
      ∀ k, lookupField (spreadOrEmpty (jget
            (JVal.obj [("default_values", JVal.obj [("battery", JVal.num 500)])])
            "default_values")) k = none →
        (fieldVal (selectUnionOption st2 "wf" "bike" "electric"
            (some (JVal.obj [("default_values", JVal.obj [("battery", JVal.num 500)])])))
          "wf" "bike").bind (fun t => jget t k) = none :=
  union_select_discards_previous [] "wf" "bike" "mountain"
    (JVal.obj [("default_values", JVal.obj [("wheels", JVal.num 2)])])
    [("suspension", JVal.str "full")] "electric"
    (JVal.obj [("default_values", JVal.obj [("battery", JVal.num 500)])])
    (fun sv h => by simp [lookupField] at h)

/-! ### Reference resolution (C4, C6)

`ImprovedDynamicFormGenerator.resolveReference` / `findInDefinitions` from
`improved-dynamic-form-generator.js`, together with the string heuristics they
use (`String.prototype.replace` with a plain pattern replaces only the first
occurrence; `camelToSnake` / `snakeToCamel` are the class's own helpers). -/

/-- `str.startsWith(pat)`. -/
def strStartsWith (s pat : String) : Bool := pat.data.isPrefixOf s.data

/-- `str.replace(pat, repl)` with a plain-string pattern: replace only the
first occurrence, scanning left to right. -/
def replaceFirst (pat repl : List Char) : List Char → List Char
  | [] => if pat.isEmpty then repl else []
  | c :: cs =>
    if pat.isPrefixOf (c :: cs) then repl ++ (c :: cs).drop pat.length
    else c :: replaceFirst pat repl cs

def jsReplaceFirst (s pat repl : String) : String :=
  ⟨replaceFirst pat.data repl.data s.data⟩

/-- `/([A-Z])/g` → `'_$1'`: prefix every ASCII upper-case letter with `_`. -/
def underscoreUppers : List Char → List Char
  | [] => []
  | c :: cs => if c.isUpper then '_' :: c :: underscoreUppers cs else c :: underscoreUppers cs

/-- `camelToSnake(str)`: underscore the uppers, lower-case everything, then
drop a single leading underscore if present. -/
def camelToSnake (s : String) : String :=
  match (underscoreUppers s.data).map Char.toLower with
  | '_' :: rest => ⟨rest⟩
  | t => ⟨t⟩

/-- `snakeToCamel(str)`: each `_x` with `x` an ASCII lower-case letter becomes
`X`, scanning left to right without overlap. -/
def snakeToCamelChars : List Char → List Char
  | [] => []
  | '_' :: c :: cs =>
    if c.isLower then c.toUpper :: snakeToCamelChars cs
    else '_' :: snakeToCamelChars (c :: cs)
  | c :: cs => c :: snakeToCamelChars cs

def snakeToCamel (s : String) : String := ⟨snakeToCamelChars s.data⟩

/-- `ref.replace(/^#\/.*\//, '')`: when the string starts with `#/` and has a
later `/`, the greedy match strips everything up to and including the last
slash; otherwise the string is unchanged. -/
def stripPathPrefix (s : String) : String :=
  match s.data with
  | '#' :: '/' :: rest =>
    if rest.contains '/' then ⟨(rest.reverse.takeWhile (fun c => c != '/')).reverse⟩
    else s
  | _ => s

/-- The parts of `this.rawSchema` the resolver consults: the two model maps.
A missing map behaves exactly like an empty one, every access being
`?.`-guarded. -/
structure SchemaDoc where
  definitions : List (String × JVal)
  schemas : List (String × JVal)

/-- The source pattern `if (map?.[name]) return map[name];`: a truthiness-
guarded probe of one map. -/
def tlookup (fs : List (String × JVal)) (k : String) : Option JVal :=
  match lookupField fs k with
  | some v => if v.truthy then some v else none
  | none => none

/-- The candidate-name list built in `findInDefinitions`. -/
def nameVariations (defName : String) : List String :=
  [defName, "RootModel_" ++ defName, jsReplaceFirst defName "RootModel_" "",
    camelToSnake defName, snakeToCamel defName]

/-- The `for (const variation of variations)` loop: probe `schemas` then
`definitions` for each candidate; the first truthy hit wins. -/
def tryVariations (doc : SchemaDoc) : List String → Option JVal
  | [] => none
  | n :: rest =>
    match tlookup doc.schemas n with
    | some x => some x
    | none =>
      match tlookup doc.definitions n with
      | some x => some x
      | none => tryVariations doc rest

/-- `ImprovedDynamicFormGenerator.findInDefinitions(defName)`. -/
def findInDefinitions (doc : SchemaDoc) (defName : String) : Option JVal :=
  match tlookup doc.definitions defName with
  | some v => some v
  | none =>
    match tlookup doc.schemas defName with
    | some v => some v
    | none => tryVariations doc (nameVariations defName)

/-- `a || b` on possibly-`undefined` values. -/
def jsOr (a b : Option JVal) : Option JVal :=
  if truthyOpt a then a else b

/-- The cache-free core of `ImprovedDynamicFormGenerator.resolveReference`. -/
def resolveRefCore (doc : SchemaDoc) (ref : String) : Option JVal :=
  if strStartsWith ref "#/$defs/" then
    findInDefinitions doc (jsReplaceFirst ref "#/$defs/" "")
  else if strStartsWith ref "#/definitions/" then
    findInDefinitions doc (jsReplaceFirst ref "#/definitions/" "")
  else if strStartsWith ref "#/schemas/" then
    lookupField doc.schemas (jsReplaceFirst ref "#/schemas/" "")
  else
    jsOr (lookupField doc.schemas (stripPathPrefix ref))
      (findInDefinitions doc (stripPathPrefix ref))

/-- The reference cache, `this.referenceCache` (a `Map`). -/
abbrev RefCache := List (String × JVal)

/-- `ImprovedDynamicFormGenerator.resolveReference(ref)`: serve from the cache
when the key is present; otherwise resolve, caching the result only when it is
truthy. -/
def resolveReference (doc : SchemaDoc) (cache : RefCache) (ref : String) :
    Option JVal × RefCache :=
  match lookupField cache ref with
  | some v => (some v, cache)
  | none =>
    match resolveRefCore doc ref with
    | some v => if v.truthy then (some v, setField cache ref v) else (some v, cache)
    | none => (none, cache)

/-- One linearised probe sequence: consult each (map, name) pair in turn. -/
def firstTruthyProbe : List (List (String × JVal) × String) → Option JVal
  | [] => none
  | (fs, n) :: rest =>
    match tlookup fs n with
    | some v => some v
    | none => firstTruthyProbe rest

/-- The probe order `findInDefinitions` realises: `definitions` and `schemas`
directly under the bare name, then for each name variant `schemas` before
`definitions`. -/
def probeList (doc : SchemaDoc) (n : String) : List (List (String × JVal) × String) :=
  (doc.definitions, n) :: (doc.schemas, n) ::
    (nameVariations n).flatMap (fun m => [(doc.schemas, m), (doc.definitions, m)])

/-- Helper for the claim-side algorithm: first direct hit in the merged model
map over a list of candidate names. -/
def specTryVariants (doc : SchemaDoc) : List String → Option JVal
  | [] => none
  | n :: rest =>
    match lookupField (doc.definitions ++ doc.schemas) n with
    | some v => some v
    | none => specTryVariants doc rest

/-- The claim's resolution algorithm, formalised from the spec's words (for
comparison with `resolveRefCore`): strip whichever known prefix applies to
obtain a bare name, look the bare name up directly in the schema document's
model map, and if absent retry the name variants in order — the literal name,
the `RootModel_`-prefixed form, the prefix-stripped form, and the
camelCase/snake_case conversions — returning the first match, or not-found. -/
def specResolveReference (doc : SchemaDoc) (ref : String) : Option JVal :=
  let bare :=
    if strStartsWith ref "#/$defs/" then jsReplaceFirst ref "#/$defs/" ""
    else if strStartsWith ref "#/definitions/" then jsReplaceFirst ref "#/definitions/" ""
    else if strStartsWith ref "#/schemas/" then jsReplaceFirst ref "#/schemas/" ""
    else ref
  match lookupField (doc.definitions ++ doc.schemas) bare with
  | some v => some v
  | none => specTryVariants doc (nameVariations bare)

@[simp] theorem mkData (s : String) : String.mk s.data = s := rfl

/-- `str.replace(pat, '')` strips a plain-string pattern that the string
starts with. -/
theorem replaceFirst_strip (p n : String) (hp : p.data ≠ []) :
    jsReplaceFirst (p ++ n) p "" = n := by
  unfold jsReplaceFirst
  cases hd : p.data with
  | nil => exact absurd hd hp
  | cons c cs =>
    rw [String.data_append, hd]
    show String.mk (replaceFirst (c :: cs) [] ((c :: cs) ++ n.data)) = n
    simp [replaceFirst, List.isPrefixOf_iff_prefix, List.prefix_append, List.drop_left]

/-- C6: resolving the same `$ref` twice in succession against the same schema
document returns the same Model Definition both times, found or not-found. -/
theorem resolveReference_idempotent (doc : SchemaDoc) (cache : RefCache) (ref : String) :
    (resolveReference doc (resolveReference doc cache ref).2 ref).1
      = (resolveReference doc cache ref).1 := by
  cases hc : lookupField cache ref with
  | some v => simp [resolveReference, hc]
  | none =>
    cases hr : resolveRefCore doc ref with
    | none => simp [resolveReference, hc, hr]
    | some v =>
      cases htr : v.truthy with
      | true => simp [resolveReference, hc, hr, htr, lookupField_setField_self]
      | false => simp [resolveReference, hc, hr, htr]

/-- C4 counterexample: for a `#/schemas/`-prefixed reference the code performs
only a direct `schemas` lookup and reports not-found, whereas the claim's
algorithm retries name variants and would find the snake_case model. -/
theorem resolveReference_schemas_skips_variants :
    (resolveReference ⟨[], [("foo_bar", JVal.obj [("type", JVal.str "object")])]⟩ []
        "#/schemas/fooBar").1 = none ∧
    specResolveReference ⟨[], [("foo_bar", JVal.obj [("type", JVal.str "object")])]⟩
        "#/schemas/fooBar" = some (JVal.obj [("type", JVal.str "object")]) :=
  ⟨rfl, rfl⟩

/-- C4 (amended): references prefixed `#/$defs/` or `#/definitions/` are
resolved through `findInDefinitions` on the stripped bare name, which probes
`definitions` then `schemas` directly and then, for each name variant in
order (literal, `RootModel_`-prefixed, prefix-stripped, camelCase/snake_case
conversions), `schemas` then `definitions`, the first truthy match winning;
a `#/schemas/`-prefixed reference gets only a direct `schemas` lookup with no
variant retries; no branch can do anything but return a value or not-found. -/
theorem resolveReference_prefix_behaviour (doc : SchemaDoc) (n : String) :
    resolveRefCore doc ("#/$defs/" ++ n) = findInDefinitions doc n ∧
    resolveRefCore doc ("#/definitions/" ++ n) = findInDefinitions doc n ∧
    resolveRefCore doc ("#/schemas/" ++ n) = lookupField doc.schemas n ∧
    findInDefinitions doc n = firstTruthyProbe (probeList doc n) := by
  refine ⟨?_, ?_, ?_, rfl⟩
  · have hc : strStartsWith ("#/$defs/" ++ n) "#/$defs/" = true := by
      simp [strStartsWith]
    simp only [resolveRefCore, hc]
    rw [replaceFirst_strip "#/$defs/" n (by decide)]
    simp
  · have hc1 : strStartsWith ("#/definitions/" ++ n) "#/$defs/" = false := by
      simp [strStartsWith, List.isPrefixOf_cons₂]
    have hc2 : strStartsWith ("#/definitions/" ++ n) "#/definitions/" = true := by
      simp [strStartsWith]
    simp only [resolveRefCore, hc1, hc2]
    rw [replaceFirst_strip "#/definitions/" n (by decide)]
    simp
  · have hc1 : strStartsWith ("#/schemas/" ++ n) "#/$defs/" = false := by
      simp [strStartsWith, List.isPrefixOf_cons₂]
    have hc2 : strStartsWith ("#/schemas/" ++ n) "#/definitions/" = false := by
      simp [strStartsWith, List.isPrefixOf_cons₂]
    have hc3 : strStartsWith ("#/schemas/" ++ n) "#/schemas/" = true := by
      simp [strStartsWith]
    simp only [resolveRefCore, hc1, hc2, hc3]
    rw [replaceFirst_strip "#/schemas/" n (by decide)]
    simp

/-! ### The JSON codec (C5, C8, C9)

`JSON.stringify` / `JSON.parse` are host functions; they are modelled over
`JVal`.  The parser accepts `JSON.parse`'s grammar: numbers with no leading
zero and optional fraction and exponent, strings with the named escapes and
`\uXXXX` escapes and no raw control characters, whitespace skipped between
tokens.  `JVal` numbers are integers, so a literal with a fractional
remainder is truncated toward zero, and a `\uXXXX` escape denoting a lone
surrogate goes through `Char.ofNat`'s total fallback: theorems that quantify
over raw strings rely only on the acceptance boundary, which is exact, and
the printer emits only literals whose value round-trips.  The printer emits
the compact form: the source passes an indent of 2 to `JSON.stringify`,
which only inserts whitespace the parser ignores. -/

def wsChar (c : Char) : Bool := [' ', '\n', '\t', '\r'].contains c

def skipWs : List Char → List Char
  | c :: cs => if wsChar c then skipWs cs else c :: cs
  | [] => []

def digitChar (n : Nat) : Char :=
  match n with
  | 0 => '0' | 1 => '1' | 2 => '2' | 3 => '3' | 4 => '4'
  | 5 => '5' | 6 => '6' | 7 => '7' | 8 => '8' | _ => '9'

/-- Decimal digits of `n`, most significant first. -/
def decChars (n : Nat) : List Char :=
  if n < 10 then [digitChar n]
  else decChars (n / 10) ++ [digitChar (n % 10)]
termination_by n
decreasing_by exact Nat.div_lt_self (by omega) (by omega)

/-- An integer literal: optional minus sign, then decimal digits. -/
def intChars (i : Int) : List Char :=
  if i < 0 then '-' :: decChars i.natAbs else decChars i.natAbs

def takeDigits : List Char → List Char × List Char
  | c :: cs =>
    if c.isDigit then
      let p := takeDigits cs
      (c :: p.1, p.2)
    else ([], c :: cs)
  | [] => ([], [])

def digitsVal (ds : List Char) : Nat :=
  ds.foldl (fun a c => a * 10 + (c.toNat - 48)) 0

/-- `JSON.parse`'s integer-part rule: a single `0`, or a nonzero leading
digit. -/
def intPartOk (ds : List Char) : Bool :=
  match ds with
  | [] => false
  | c :: t => c != '0' || t.isEmpty

/-- Optional fraction of a number literal: `.` followed by one or more
digits, or nothing. -/
def scanFrac : List Char → Option (List Char × List Char)
  | '.' :: cs =>
    match takeDigits cs with
    | ([], _) => none
    | (ds, r) => some (ds, r)
  | cs => some ([], cs)

/-- Optional exponent of a number literal: `e`/`E`, an optional sign, one or
more digits — or nothing, read as exponent `0`. -/
def scanExp : List Char → Option (Int × List Char)
  | c :: cs =>
    if c == 'e' || c == 'E' then
      match cs with
      | '+' :: cs' =>
        match takeDigits cs' with
        | ([], _) => none
        | (ds, r) => some ((digitsVal ds : Int), r)
      | '-' :: cs' =>
        match takeDigits cs' with
        | ([], _) => none
        | (ds, r) => some (-(digitsVal ds : Int), r)
      | _ =>
        match takeDigits cs with
        | ([], _) => none
        | (ds, r) => some ((digitsVal ds : Int), r)
    else some (0, c :: cs)
  | [] => some (0, [])

/-- Magnitude of `I.F × 10^E` truncated toward zero — `JVal` numbers are
integers, so this is exact for every literal without a fractional remainder
(in particular for everything the printer emits) and an approximation
otherwise; no theorem relies on the approximated values. -/
def numMag (ipart fpart : List Char) (e : Int) : Nat :=
  if 0 ≤ e - (fpart.length : Int) then
    (digitsVal ipart * 10 ^ fpart.length + digitsVal fpart)
      * 10 ^ (e - (fpart.length : Int)).toNat
  else
    (digitsVal ipart * 10 ^ fpart.length + digitsVal fpart)
      / 10 ^ ((fpart.length : Int) - e).toNat

/-- A number literal after its optional sign: integer part with no leading
zero, optional fraction, optional exponent — exactly the strings
`JSON.parse` accepts there. -/
def scanNum (cs : List Char) : Option (Nat × List Char) :=
  let p := takeDigits cs
  if intPartOk p.1 then
    match scanFrac p.2 with
    | none => none
    | some (fs, r2) =>
      match scanExp r2 with
      | none => none
      | some (e, r3) => some (numMag p.1 fs e, r3)
  else none

/-- Lowercase hexadecimal digit, for the `\u00XX` control-character escapes
the printer emits. -/
def hexChar (n : Nat) : Char :=
  if n < 10 then digitChar n
  else if n = 10 then 'a'
  else if n = 11 then 'b'
  else if n = 12 then 'c'
  else if n = 13 then 'd'
  else if n = 14 then 'e'
  else 'f'

/-- Hexadecimal digit value, for `\uXXXX` escapes (either case accepted). -/
def hexVal (c : Char) : Option Nat :=
  if c.isDigit then some (c.toNat - 48)
  else if 'a' ≤ c ∧ c ≤ 'f' then some (c.toNat - 87)
  else if 'A' ≤ c ∧ c ≤ 'F' then some (c.toNat - 55)
  else none

def escChar (c : Char) : List Char :=
  if c = '"' then ['\\', '"']
  else if c = '\\' then ['\\', '\\']
  else if c = '\n' then ['\\', 'n']
  else if c = '\t' then ['\\', 't']
  else if c = '\r' then ['\\', 'r']
  else if c = '\x08' then ['\\', 'b']
  else if c = '\x0c' then ['\\', 'f']
  else if c.toNat < 32 then
    ['\\', 'u', '0', '0', hexChar (c.toNat / 16), hexChar (c.toNat % 16)]
  else [c]

def escChars : List Char → List Char
  | [] => []
  | c :: cs => escChar c ++ escChars cs

def unescChar (c : Char) : Option Char :=
  if c = '"' then some '"'
  else if c = '\\' then some '\\'
  else if c = '/' then some '/'
  else if c = 'n' then some '\n'
  else if c = 't' then some '\t'
  else if c = 'r' then some '\r'
  else if c = 'b' then some '\x08'
  else if c = 'f' then some '\x0c'
  else none

/-- The characters of a string literal after its opening quote, up to the
closing quote: the named escapes, `\uXXXX` escapes with four hex digits, and
no raw control characters — `JSON.parse`'s grammar.  A `\uXXXX` escape
denoting a lone surrogate goes through `Char.ofNat`'s total fallback
(JavaScript strings admit lone surrogates, Lean `Char`s do not); the
acceptance boundary is exact, and the printer never emits such an escape. -/
def scanStr : List Char → Option (List Char × List Char)
  | [] => none
  | '"' :: cs => some ([], cs)
  | '\\' :: cs =>
    match cs with
    | [] => none
    | 'u' :: h1 :: h2 :: h3 :: h4 :: cs' =>
      match hexVal h1, hexVal h2, hexVal h3, hexVal h4 with
      | some a, some b, some c, some d =>
        match scanStr cs' with
        | some (s, r) => some (Char.ofNat (((a * 16 + b) * 16 + c) * 16 + d) :: s, r)
        | none => none
      | _, _, _, _ => none
    | e :: cs' =>
      match unescChar e, scanStr cs' with
      | some u, some (s, r) => some (u :: s, r)
      | _, _ => none
  | c :: cs =>
    if c.toNat < 32 then none
    else
      match scanStr cs with
      | some (s, r) => some (c :: s, r)
      | none => none

mutual

/-- Fuel-indexed JSON value parser over characters. -/
def jparse : Nat → List Char → Option (JVal × List Char)
  | 0, _ => none
  | fuel + 1, cs =>
    match skipWs cs with
    | [] => none
    | c :: cs' =>
      if c = 'n' then
        match cs' with
        | 'u' :: 'l' :: 'l' :: r => some (.null, r)
        | _ => none
      else if c = 't' then
        match cs' with
        | 'r' :: 'u' :: 'e' :: r => some (.bool true, r)
        | _ => none
      else if c = 'f' then
        match cs' with
        | 'a' :: 'l' :: 's' :: 'e' :: r => some (.bool false, r)
        | _ => none
      else if c = '"' then
        match scanStr cs' with
        | some (s, r) => some (.str ⟨s⟩, r)
        | none => none
      else if c = '-' then
        match scanNum cs' with
        | some (m, r) => some (.num (-(m : Int)), r)
        | none => none
      else if c.isDigit then
        match scanNum (c :: cs') with
        | some (m, r) => some (.num (m : Int), r)
        | none => none
      else if c = '[' then
        match skipWs cs' with
        | [] => none
        | d :: r =>
          if d = ']' then some (.arr [], r)
          else
            match jparseItems fuel cs' with
            | some (vs, r2) => some (.arr vs, r2)
            | none => none
      else if c = '{' then
        match skipWs cs' with
        | [] => none
        | d :: r =>
          if d = '}' then some (.obj [], r)
          else
            match jparsePairs fuel cs' with
            | some (ms, r2) => some (.obj ms, r2)
            | none => none
      else none

/-- One-or-more comma-separated array elements, ending at `]`. -/
def jparseItems : Nat → List Char → Option (List JVal × List Char)
  | 0, _ => none
  | fuel + 1, cs =>
    match jparse fuel cs with
    | none => none
    | some (v, r) =>
      match skipWs r with
      | ',' :: r' =>
        match jparseItems fuel r' with
        | some (vs, r2) => some (v :: vs, r2)
        | none => none
      | ']' :: r' => some ([v], r')
      | _ => none

/-- One-or-more comma-separated object members, ending at `}`. -/
def jparsePairs : Nat → List Char → Option (List (String × JVal) × List Char)
  | 0, _ => none
  | fuel + 1, cs =>
    match skipWs cs with
    | '"' :: cs' =>
      match scanStr cs' with
      | none => none
      | some (k, r) =>
        match skipWs r with
        | ':' :: r' =>
          match jparse fuel r' with
          | none => none
          | some (v, r2) =>
            match skipWs r2 with
            | ',' :: r3 =>
              match jparsePairs fuel r3 with
              | some (ms, r4) => some ((⟨k⟩, v) :: ms, r4)
              | none => none
            | '}' :: r3 => some ([(⟨k⟩, v)], r3)
            | _ => none
        | _ => none
    | _ => none

end

mutual

/-- Compact JSON printing of a value, as a character list. -/
def jprint : JVal → List Char
  | .null => "null".data
  | .bool true => "true".data
  | .bool false => "false".data
  | .num i => intChars i
  | .str s => '"' :: (escChars s.data ++ ['"'])
  | .arr [] => ['[', ']']
  | .arr (v :: vs) => '[' :: (jprintItems v vs ++ [']'])
  | .obj [] => ['{', '}']
  | .obj (m :: ms) => '{' :: (jprintPairs m ms ++ ['}'])
termination_by v => sizeOf v

def jprintItems : JVal → List JVal → List Char
  | v, [] => jprint v
  | v, w :: vs => jprint v ++ ',' :: jprintItems w vs
termination_by v vs => sizeOf v + sizeOf vs

def jprintPairs : String × JVal → List (String × JVal) → List Char
  | (k, v), [] => '"' :: (escChars k.data ++ '"' :: ':' :: jprint v)
  | (k, v), m :: ms =>
    ('"' :: (escChars k.data ++ '"' :: ':' :: jprint v)) ++ ',' :: jprintPairs m ms
termination_by m ms => sizeOf m + sizeOf ms

end

mutual

/-- Parser fuel needed for a value: one frame per nesting level and per list
element. -/
def jcost : JVal → Nat
  | .arr vs => jcostItems vs + 1
  | .obj ms => jcostPairs ms + 1
  | _ => 1
termination_by v => sizeOf v

def jcostItems : List JVal → Nat
  | [] => 0
  | v :: vs => max (jcost v) (jcostItems vs) + 1
termination_by vs => sizeOf vs

def jcostPairs : List (String × JVal) → Nat
  | [] => 0
  | (_, v) :: ms => max (jcost v) (jcostPairs ms) + 1
termination_by ms => sizeOf ms

end

/-- `JSON.parse`: a complete document, allowing trailing whitespace only. -/
def jsonParse (s : String) : Option JVal :=
  match jparse (s.data.length + 1) s.data with
  | some (v, r) =>
    match skipWs r with
    | [] => some v
    | _ => none
  | none => none

/-- `JSON.stringify` (compact; see the section comment on whitespace). -/
def jsonStringify (v : JVal) : String := ⟨jprint v⟩

/-! ### Round trip of the JSON codec -/

/-- A remainder that cannot extend a printed number: empty or headed by a
JSON delimiter. -/
def delimOk (cs : List Char) : Bool :=
  match cs with
  | [] => true
  | c :: _ => c == ',' || c == ']' || c == '}'

theorem div10_lt {n : Nat} (h : ¬ n < 10) : n / 10 < n :=
  Nat.div_lt_self (by omega) (by omega)

theorem digitChar_isDigit (d : Nat) (h : d < 10) : (digitChar d).isDigit = true := by
  interval_cases d <;> decide

theorem digitChar_val (d : Nat) (h : d < 10) : (digitChar d).toNat - 48 = d := by
  interval_cases d <;> decide

theorem decChars_digits (n : Nat) : ∀ c ∈ decChars n, c.isDigit = true := by
  induction n using Nat.strongRecOn with
  | ind n ih =>
    rw [decChars]
    by_cases h : n < 10
    · simpa [h] using digitChar_isDigit n h
    · simp only [h, if_false]
      intro c hc
      rcases List.mem_append.mp hc with hc | hc
      · exact ih (n / 10) (div10_lt h) c hc
      · rw [List.mem_singleton] at hc
        subst hc
        exact digitChar_isDigit _ (Nat.mod_lt _ (by omega))

theorem decChars_ne_nil (n : Nat) : decChars n ≠ [] := by
  rw [decChars]
  by_cases h : n < 10 <;> simp [h]

theorem decChars_cons (n : Nat) : ∃ c t, decChars n = c :: t ∧ c.isDigit = true := by
  cases hd : decChars n with
  | nil => exact absurd hd (decChars_ne_nil n)
  | cons c t => exact ⟨c, t, rfl, decChars_digits n c (hd ▸ List.mem_cons_self _ _)⟩

theorem digitsVal_decChars (n : Nat) : digitsVal (decChars n) = n := by
  induction n using Nat.strongRecOn with
  | ind n ih =>
    rw [decChars]
    by_cases h : n < 10
    · simp only [h, if_true, digitsVal, List.foldl_cons, List.foldl_nil]
      have := digitChar_val n h
      omega
    · simp only [h, if_false, digitsVal, List.foldl_append, List.foldl_cons, List.foldl_nil]
      have h1 := ih (n / 10) (div10_lt h)
      have h2 := digitChar_val (n % 10) (Nat.mod_lt _ (by omega))
      simp only [digitsVal] at h1
      rw [h1, h2]
      omega

theorem takeDigits_delim (cs : List Char) (h : delimOk cs = true) :
    takeDigits cs = ([], cs) := by
  cases cs with
  | nil => rfl
  | cons c t =>
    simp [delimOk] at h
    rcases h with (rfl | rfl) | rfl <;> rfl

theorem takeDigits_run : ∀ (ds : List Char), (∀ c ∈ ds, c.isDigit = true) →
    ∀ rest, takeDigits rest = ([], rest) → takeDigits (ds ++ rest) = (ds, rest) := by
  intro ds
  induction ds with
  | nil =>
    intro _ rest h
    simpa using h
  | cons c t ih =>
    intro hall rest hrest
    have hc : c.isDigit = true := hall c (List.mem_cons_self _ _)
    have ht := ih (fun x hx => hall x (List.mem_cons_of_mem _ hx)) rest hrest
    simp [takeDigits, hc, ht]

theorem decChars_head_pos : ∀ n : Nat, n ≠ 0 → ∃ c t, decChars n = c :: t ∧ c ≠ '0' := by
  intro n
  induction n using Nat.strongRecOn with
  | ind n ih =>
    intro hn
    rw [decChars]
    by_cases h : n < 10
    · simp only [h, if_true]
      refine ⟨digitChar n, [], rfl, ?_⟩
      interval_cases n
      · exact absurd rfl hn
      all_goals decide
    · simp only [h, if_false]
      obtain ⟨c, t, hct, hc⟩ := ih (n / 10) (div10_lt h) (by omega)
      exact ⟨c, t ++ [digitChar (n % 10)], by rw [hct]; rfl, hc⟩

theorem intPartOk_decChars (n : Nat) : intPartOk (decChars n) = true := by
  by_cases h0 : n = 0
  · subst h0
    rw [decChars]
    simp [intPartOk, digitChar]
  · obtain ⟨c, t, hct, hc⟩ := decChars_head_pos n h0
    rw [hct]
    simp [intPartOk, hc]

theorem scanFrac_delim (cs : List Char) (h : delimOk cs = true) :
    scanFrac cs = some ([], cs) := by
  cases cs with
  | nil => rfl
  | cons c t =>
    simp [delimOk] at h
    rcases h with (rfl | rfl) | rfl <;> rfl

theorem scanExp_delim (cs : List Char) (h : delimOk cs = true) :
    scanExp cs = some (0, cs) := by
  cases cs with
  | nil => rfl
  | cons c t =>
    simp [delimOk] at h
    rcases h with (rfl | rfl) | rfl <;> rfl

theorem numMag_int (ds : List Char) : numMag ds [] 0 = digitsVal ds := by
  simp [numMag, digitsVal]

theorem scanNum_decChars (n : Nat) (rest : List Char) (hd : delimOk rest = true) :
    scanNum (decChars n ++ rest) = some (n, rest) := by
  have htd := takeDigits_run (decChars n) (decChars_digits n) rest (takeDigits_delim rest hd)
  simp [scanNum, htd, intPartOk_decChars, scanFrac_delim rest hd, scanExp_delim rest hd,
    numMag_int, digitsVal_decChars]

theorem hexVal_hexChar (n : Nat) (h : n < 16) : hexVal (hexChar n) = some n := by
  interval_cases n <;> decide

theorem scanStr_escChar (c : Char) (t s r : List Char)
    (h : scanStr t = some (s, r)) : scanStr (escChar c ++ t) = some (c :: s, r) := by
  by_cases h1 : c = '"'
  · subst h1; simp [escChar, scanStr, unescChar, h]
  · by_cases h2 : c = '\\'
    · subst h2; simp [escChar, scanStr, unescChar, h]
    · by_cases h3 : c = '\n'
      · subst h3; simp [escChar, scanStr, unescChar, h]
      · by_cases h4 : c = '\t'
        · subst h4; simp [escChar, scanStr, unescChar, h]
        · by_cases h5 : c = '\r'
          · subst h5; simp [escChar, scanStr, unescChar, h]
          · by_cases h6 : c = '\x08'
            · subst h6; simp [escChar, scanStr, unescChar, h]
            · by_cases h7 : c = '\x0c'
              · subst h7; simp [escChar, scanStr, unescChar, h]
              · by_cases h8 : c.toNat < 32
                · have hv1 := hexVal_hexChar (c.toNat / 16) (by omega)
                  have hv2 := hexVal_hexChar (c.toNat % 16) (Nat.mod_lt _ (by omega))
                  have hz : hexVal '0' = some 0 := by decide
                  have hchar : Char.ofNat (c.toNat / 16 * 16 + c.toNat % 16) = c := by
                    have he : c.toNat / 16 * 16 + c.toNat % 16 = c.toNat := by omega
                    rw [he, Char.ofNat_toNat]
                  simp [escChar, h1, h2, h3, h4, h5, h6, h7, h8, scanStr,
                    hz, hv1, hv2, hchar, h]
                · simp [escChar, h1, h2, h3, h4, h5, h6, h7, h8, scanStr, h]

theorem scanStr_escChars (s : List Char) : ∀ rest : List Char,
    scanStr (escChars s ++ '"' :: rest) = some (s, rest) := by
  induction s with
  | nil => intro rest; simp [escChars, scanStr]
  | cons c t ih =>
    intro rest
    rw [escChars, List.append_assoc]
    exact scanStr_escChar c _ t rest (ih rest)

theorem digit_not_special (c : Char) (h : c.isDigit = true) :
    wsChar c = false ∧ c ≠ ']' ∧ c ≠ '}' ∧ c ≠ 'n' ∧ c ≠ 't' ∧ c ≠ 'f' ∧
    c ≠ '"' ∧ c ≠ '-' ∧ c ≠ '[' ∧ c ≠ '{' := by
  refine ⟨?_, fun e => absurd (e ▸ h) (by decide), fun e => absurd (e ▸ h) (by decide),
    fun e => absurd (e ▸ h) (by decide), fun e => absurd (e ▸ h) (by decide),
    fun e => absurd (e ▸ h) (by decide), fun e => absurd (e ▸ h) (by decide),
    fun e => absurd (e ▸ h) (by decide), fun e => absurd (e ▸ h) (by decide),
    fun e => absurd (e ▸ h) (by decide)⟩
  cases hw : wsChar c with
  | false => rfl
  | true =>
    simp [wsChar] at hw
    rcases hw with rfl | rfl | rfl | rfl <;> exact absurd h (by decide)

theorem skipWs_not_ws {c : Char} (h : wsChar c = false) (cs : List Char) :
    skipWs (c :: cs) = c :: cs := by
  simp [skipWs, h]

/-- Every printed value starts with a non-whitespace character that closes
neither bracket. -/
theorem jprint_head (v : JVal) :
    ∃ c t, jprint v = c :: t ∧ wsChar c = false ∧ c ≠ ']' ∧ c ≠ '}' := by
  cases v with
  | null =>
    exact ⟨'n', ['u', 'l', 'l'], by simp [jprint], by decide, by decide, by decide⟩
  | bool b =>
    cases b with
    | true =>
      exact ⟨'t', ['r', 'u', 'e'], by simp [jprint], by decide, by decide, by decide⟩
    | false =>
      exact ⟨'f', ['a', 'l', 's', 'e'], by simp [jprint], by decide, by decide, by decide⟩
  | str s =>
    exact ⟨'"', escChars s.data ++ ['"'], by simp [jprint], by decide, by decide, by decide⟩
  | arr vs =>
    cases vs with
    | nil => exact ⟨'[', [']'], by simp [jprint], by decide, by decide, by decide⟩
    | cons w ws =>
      exact ⟨'[', jprintItems w ws ++ [']'], by simp [jprint], by decide, by decide, by decide⟩
  | obj ms =>
    cases ms with
    | nil => exact ⟨'{', ['}'], by simp [jprint], by decide, by decide, by decide⟩
    | cons m ms' =>
      exact ⟨'{', jprintPairs m ms' ++ ['}'], by simp [jprint], by decide, by decide, by decide⟩
  | num i =>
    by_cases hneg : i < 0
    · refine ⟨'-', decChars i.natAbs, ?_, by decide, by decide, by decide⟩
      simp [jprint, intChars, hneg]
    · obtain ⟨c, t, hct, hd⟩ := decChars_cons i.natAbs
      obtain ⟨hws, hbr, hbc, _⟩ := digit_not_special c hd
      refine ⟨c, t, ?_, hws, hbr, hbc⟩
      simp [jprint, intChars, hneg, hct]

theorem jcost_pos (v : JVal) : 1 ≤ jcost v := by
  cases v <;> simp [jcost]

theorem jparse_num_print (fuel : Nat) (i : Int) (rest : List Char)
    (hd : delimOk rest = true) :
    jparse (fuel + 1) (intChars i ++ rest) = some (.num i, rest) := by
  obtain ⟨c0, t0, h0, hdig⟩ := decChars_cons i.natAbs
  have hsn := scanNum_decChars i.natAbs rest hd
  have hsn' : scanNum (c0 :: (t0 ++ rest)) = some (i.natAbs, rest) := by
    have h2 := hsn
    rw [h0] at h2
    simpa using h2
  by_cases hneg : i < 0
  · have harg : intChars i ++ rest = '-' :: (decChars i.natAbs ++ rest) := by
      simp [intChars, hneg]
    rw [harg, h0]
    simp [jparse, skipWs, wsChar, hsn']
    simp [abs_of_neg (show i < 0 from hneg)]
  · have harg : intChars i ++ rest = c0 :: (t0 ++ rest) := by
      simp [intChars, hneg, h0]
    obtain ⟨hws, hbr, hbc, hn, ht, hf, hq, hm, hbk, hob⟩ := digit_not_special c0 hdig
    rw [harg]
    simp [jparse, skipWs_not_ws hws, hn, ht, hf, hq, hm, hdig, hsn']
    have hge : (0 : Int) ≤ i := by omega
    simp [abs_of_nonneg hge]
    omega

theorem jcost_arr (vs : List JVal) : jcost (.arr vs) = jcostItems vs + 1 := by
  simp [jcost]

theorem jcost_obj (ms : List (String × JVal)) : jcost (.obj ms) = jcostPairs ms + 1 := by
  simp [jcost]

theorem jcostItems_cons (v : JVal) (vs : List JVal) :
    jcostItems (v :: vs) = max (jcost v) (jcostItems vs) + 1 := by
  simp [jcostItems]

theorem jcostPairs_cons (k : String) (v : JVal) (ms : List (String × JVal)) :
    jcostPairs ((k, v) :: ms) = max (jcost v) (jcostPairs ms) + 1 := by
  simp [jcostPairs]

theorem cost_split {a b fuel : Nat} (h : max a b + 1 ≤ fuel + 1) : a ≤ fuel ∧ b ≤ fuel :=
  have h' : max a b ≤ fuel := Nat.le_of_succ_le_succ h
  ⟨le_trans (le_max_left a b) h', le_trans (le_max_right a b) h'⟩

mutual

theorem jparse_print : ∀ (fuel : Nat) (v : JVal) (rest : List Char),
    jcost v ≤ fuel → delimOk rest = true →
    jparse fuel (jprint v ++ rest) = some (v, rest)
  | 0, v, _, hc, _ => by
    have := jcost_pos v
    omega
  | fuel + 1, .null, rest, _, _ => by
    simp [jprint, jparse, skipWs, wsChar]
  | fuel + 1, .bool true, rest, _, _ => by
    simp [jprint, jparse, skipWs, wsChar]
  | fuel + 1, .bool false, rest, _, _ => by
    simp [jprint, jparse, skipWs, wsChar]
  | fuel + 1, .num i, rest, _, hd => by
    have harg : jprint (.num i) = intChars i := by simp [jprint]
    rw [harg]
    exact jparse_num_print fuel i rest hd
  | fuel + 1, .str s, rest, _, _ => by
    have harg : jprint (.str s) ++ rest = '"' :: (escChars s.data ++ '"' :: rest) := by
      simp [jprint]
    rw [harg]
    simp [jparse, skipWs, wsChar, scanStr_escChars]
  | fuel + 1, .arr [], rest, _, _ => by
    have harg : jprint (.arr []) ++ rest = '[' :: ']' :: rest := by simp [jprint]
    rw [harg]
    simp [jparse, skipWs, wsChar]
  | fuel + 1, .arr (v :: vs), rest, hc, _ => by
    obtain ⟨c0, t0, hh, hws0, hbr0, hbc0⟩ := jprint_head v
    have hhead : ∃ t', jprintItems v vs = c0 :: t' := by
      cases vs with
      | nil => exact ⟨t0, by simp [jprintItems, hh]⟩
      | cons w ws => exact ⟨t0 ++ ',' :: jprintItems w ws, by simp [jprintItems, hh]⟩
    obtain ⟨t', ht'⟩ := hhead
    rw [jcost_arr] at hc
    have hcost : jcostItems (v :: vs) ≤ fuel := Nat.le_of_succ_le_succ hc
    have hkey := jparseItems_print fuel v vs rest hcost
    have harg : jprint (.arr (v :: vs)) ++ rest
        = '[' :: (jprintItems v vs ++ ']' :: rest) := by
      simp [jprint]
    rw [harg]
    have hskip : skipWs (jprintItems v vs ++ ']' :: rest)
        = c0 :: (t' ++ ']' :: rest) := by
      rw [ht', List.cons_append, skipWs_not_ws hws0]
    simp [jparse, skipWs, wsChar, hskip, hbr0, hkey]
  | fuel + 1, .obj [], rest, _, _ => by
    have harg : jprint (.obj []) ++ rest = '{' :: '}' :: rest := by simp [jprint]
    rw [harg]
    simp [jparse, skipWs, wsChar]
  | fuel + 1, .obj ((k, v) :: ms), rest, hc, _ => by
    have hhead : ∃ t', jprintPairs (k, v) ms = '"' :: t' := by
      cases ms with
      | nil => exact ⟨escChars k.data ++ '"' :: ':' :: jprint v, by simp [jprintPairs]⟩
      | cons m ms' =>
        exact ⟨escChars k.data ++ '"' :: ':' :: jprint v ++ ',' :: jprintPairs m ms',
          by simp [jprintPairs]⟩
    obtain ⟨t', ht'⟩ := hhead
    rw [jcost_obj] at hc
    have hcost : jcostPairs ((k, v) :: ms) ≤ fuel := Nat.le_of_succ_le_succ hc
    have hkey := jparsePairs_print fuel (k, v) ms rest hcost
    have harg : jprint (.obj ((k, v) :: ms)) ++ rest
        = '{' :: (jprintPairs (k, v) ms ++ '}' :: rest) := by
      simp [jprint]
    rw [harg]
    have hskip : skipWs (jprintPairs (k, v) ms ++ '}' :: rest)
        = '"' :: (t' ++ '}' :: rest) := by
      rw [ht', List.cons_append, skipWs_not_ws (by decide)]
    simp [jparse, skipWs, wsChar, hskip, hkey]
termination_by fuel v rest hc hd => (fuel, 0)

theorem jparseItems_print : ∀ (fuel : Nat) (v : JVal) (vs : List JVal) (rest : List Char),
    jcostItems (v :: vs) ≤ fuel →
    jparseItems fuel (jprintItems v vs ++ ']' :: rest) = some (v :: vs, rest)
  | 0, v, vs, _, hc => by
    rw [jcostItems_cons] at hc
    omega
  | fuel + 1, v, [], rest, hc => by
    rw [jcostItems_cons] at hc
    obtain ⟨hcv, _⟩ := cost_split hc
    have hv := jparse_print fuel v (']' :: rest) hcv rfl
    have harg : jprintItems v [] ++ ']' :: rest = jprint v ++ ']' :: rest := by
      simp [jprintItems]
    rw [harg]
    simp [jparseItems, hv, skipWs, wsChar]
  | fuel + 1, v, w :: ws, rest, hc => by
    rw [jcostItems_cons] at hc
    obtain ⟨hcv, hcw⟩ := cost_split hc
    have hv := jparse_print fuel v (',' :: (jprintItems w ws ++ ']' :: rest)) hcv rfl
    have hkey := jparseItems_print fuel w ws rest hcw
    have harg : jprintItems v (w :: ws) ++ ']' :: rest
        = jprint v ++ ',' :: (jprintItems w ws ++ ']' :: rest) := by
      simp [jprintItems]
    rw [harg]
    simp [jparseItems, hv, hkey, skipWs, wsChar]
termination_by fuel v vs rest hc => (fuel, 1)

theorem jparsePairs_print : ∀ (fuel : Nat) (m : String × JVal) (ms : List (String × JVal))
    (rest : List Char), jcostPairs (m :: ms) ≤ fuel →
    jparsePairs fuel (jprintPairs m ms ++ '}' :: rest) = some (m :: ms, rest)
  | 0, (k, v), ms, _, hc => by
    rw [jcostPairs_cons] at hc
    omega
  | fuel + 1, (k, v), [], rest, hc => by
    rw [jcostPairs_cons] at hc
    obtain ⟨hcv, _⟩ := cost_split hc
    have hv := jparse_print fuel v ('}' :: rest) hcv rfl
    have hscan := scanStr_escChars k.data (':' :: (jprint v ++ '}' :: rest))
    have harg : jprintPairs (k, v) [] ++ '}' :: rest
        = '"' :: (escChars k.data ++ '"' :: ':' :: (jprint v ++ '}' :: rest)) := by
      simp [jprintPairs]
    rw [harg]
    simp [jparsePairs, skipWs, wsChar, hscan, hv]
  | fuel + 1, (k, v), m :: ms, rest, hc => by
    rw [jcostPairs_cons] at hc
    obtain ⟨hcv, hcm⟩ := cost_split hc
    have hv := jparse_print fuel v
      (',' :: (jprintPairs m ms ++ '}' :: rest)) hcv rfl
    have hkey := jparsePairs_print fuel m ms rest hcm
    have hscan := scanStr_escChars k.data
      (':' :: (jprint v ++ ',' :: (jprintPairs m ms ++ '}' :: rest)))
    have harg : jprintPairs (k, v) (m :: ms) ++ '}' :: rest
        = '"' :: (escChars k.data
            ++ '"' :: ':' :: (jprint v ++ ',' :: (jprintPairs m ms ++ '}' :: rest))) := by
      simp [jprintPairs]
    rw [harg]
    simp [jparsePairs, skipWs, wsChar, hscan, hv, hkey]
termination_by fuel m ms rest hc => (fuel, 1)

end

@[simp] theorem dataMk (l : List Char) : (String.mk l).data = l := rfl

theorem intChars_ne_nil (i : Int) : intChars i ≠ [] := by
  rw [intChars]
  by_cases h : i < 0
  · simp [h]
  · simp [h, decChars_ne_nil]

mutual

theorem jcost_le_len : ∀ v : JVal, jcost v ≤ (jprint v).length
  | .null => by simp [jcost, jprint]
  | .bool true => by simp [jcost, jprint]
  | .bool false => by simp [jcost, jprint]
  | .num i => by
    have hne := intChars_ne_nil i
    have hpos : 0 < (intChars i).length := List.length_pos.mpr hne
    have harg : (jprint (.num i)).length = (intChars i).length := by simp [jprint]
    have hco : jcost (.num i) = 1 := by simp [jcost]
    omega
  | .str s => by
    have harg : (jprint (.str s)).length = (escChars s.data ++ ['"']).length + 1 := by
      simp [jprint]
    have hco : jcost (.str s) = 1 := by simp [jcost]
    omega
  | .arr [] => by
    have hco : jcost (.arr ([] : List JVal)) = 1 := by simp [jcost, jcostItems]
    have harg : (jprint (.arr ([] : List JVal))).length = 2 := by simp [jprint]
    omega
  | .arr (v :: vs) => by
    rw [jcost_arr]
    have hb := jcostItems_le v vs
    have hlen : (jprint (.arr (v :: vs))).length = (jprintItems v vs).length + 2 := by
      simp [jprint]
    omega
  | .obj [] => by
    have hco : jcost (.obj ([] : List (String × JVal))) = 1 := by simp [jcost, jcostPairs]
    have harg : (jprint (.obj ([] : List (String × JVal)))).length = 2 := by simp [jprint]
    omega
  | .obj (m :: ms) => by
    rw [jcost_obj]
    have hb := jcostPairs_le m ms
    have hlen : (jprint (.obj (m :: ms))).length = (jprintPairs m ms).length + 2 := by
      simp [jprint]
    omega
termination_by v => sizeOf v

theorem jcostItems_le : ∀ (v : JVal) (vs : List JVal),
    jcostItems (v :: vs) ≤ (jprintItems v vs).length + 1
  | v, [] => by
    rw [jcostItems_cons]
    have h1 := jcost_le_len v
    have hl : jprintItems v [] = jprint v := by simp [jprintItems]
    rw [hl]
    simp [jcostItems]
    omega
  | v, w :: ws => by
    rw [jcostItems_cons]
    have h1 := jcost_le_len v
    have h2 := jcostItems_le w ws
    have hl : (jprintItems v (w :: ws)).length
        = (jprint v).length + 1 + (jprintItems w ws).length := by
      simp [jprintItems]
      omega
    omega
termination_by v vs => sizeOf v + sizeOf vs

theorem jcostPairs_le : ∀ (m : String × JVal) (ms : List (String × JVal)),
    jcostPairs (m :: ms) ≤ (jprintPairs m ms).length + 1
  | (k, v), [] => by
    rw [jcostPairs_cons]
    have h1 := jcost_le_len v
    have hl : (jprintPairs (k, v) []).length
        = (escChars k.data).length + 3 + (jprint v).length := by
      simp [jprintPairs]
      omega
    simp [jcostPairs]
    omega
  | (k, v), m :: ms => by
    rw [jcostPairs_cons]
    have h1 := jcost_le_len v
    have h2 := jcostPairs_le m ms
    have hl : (jprintPairs (k, v) (m :: ms)).length
        = (escChars k.data).length + 3 + (jprint v).length + 1 + (jprintPairs m ms).length := by
      simp [jprintPairs]
      omega
    omega
termination_by m ms => sizeOf m + sizeOf ms

end

/-- The codec round trip: parsing a stringified value recovers it exactly. -/
theorem jsonParse_stringify (v : JVal) : jsonParse (jsonStringify v) = some v := by
  have hc : jcost v ≤ (jprint v).length + 1 := le_trans (jcost_le_len v) (by omega)
  have h := jparse_print ((jprint v).length + 1) v [] hc rfl
  rw [List.append_nil] at h
  simp [jsonParse, jsonStringify, h, skipWs]

/-! ### Export / import (`DataManager.exportData` / `importData`) and the CSV
converter, plus `ArrayManager.fetchSchema` (C5, C8, C9) -/

/-- `Object.keys(v).length` in the JavaScript sense. -/
def keysCount : JVal → Nat
  | .obj fs => fs.length
  | .arr xs => xs.length
  | .str s => s.length
  | _ => 0

/-- `Object.entries(v)` (objects: own entries; arrays and strings: index-keyed). -/
def jentries : JVal → List (String × JVal)
  | .obj fs => fs
  | .arr xs => spreadIdx 0 xs
  | .str s => spreadChars 0 s.data
  | _ => []

/-- `str.toLowerCase()` (ASCII; the formats compared against are ASCII). -/
def toLowerStr (s : String) : String := ⟨s.data.map Char.toLower⟩

/-- `ts.split('T')[0]`: the date part of an ISO timestamp. -/
def datePart (ts : String) : String := ⟨ts.data.takeWhile (fun c => c != 'T')⟩

/-- `Set.add` on an insertion-ordered header list. -/
def addHeader (hs : List String) (h : String) : List String :=
  if hs.contains h then hs else hs ++ [h]

/-- `String(v)` for the primitive values the CSV writer stores. -/
def jsString : JVal → String
  | .null => "null"
  | .bool true => "true"
  | .bool false => "false"
  | .num i => ⟨intChars i⟩
  | .str s => s
  | .arr _ => ""
  | .obj _ => ""

mutual

/-- `convertToCSV.extractHeaders`, one entry: dispatch on the entry's value. -/
def ehVal (pre key : String) (value : JVal) (acc : List String) : List String :=
  let header := if pre = "" then key else pre ++ "." ++ key
  match value with
  | .arr xs => ehItems xs 0 header (addHeader acc (header ++ "_count"))
  | .obj fs => ehEntries fs header acc
  | _ => addHeader acc header
termination_by sizeOf value

def ehEntries : List (String × JVal) → String → List String → List String
  | [], _, acc => acc
  | (k, v) :: es, pre, acc => ehEntries es pre (ehVal pre k v acc)
termination_by es => sizeOf es

/-- The `value.forEach((item, index) => ...)` loop over an array entry. -/
def ehItems : List JVal → Nat → String → List String → List String
  | [], _, _, acc => acc
  | x :: xs, i, header, acc =>
    let acc2 :=
      match x with
      | .obj fs => ehEntries fs (header ++ "[" ++ toString i ++ "]") acc
      | .arr ys => ehIdx ys 0 (header ++ "[" ++ toString i ++ "]") acc
      | _ => acc
    ehItems xs (i + 1) header acc2
termination_by xs _ _ _ => sizeOf xs

/-- `extractHeaders` applied to an array carrier: its index-keyed entries. -/
def ehIdx : List JVal → Nat → String → List String → List String
  | [], _, _, acc => acc
  | x :: xs, i, pre, acc => ehIdx xs (i + 1) pre (ehVal pre (toString i) x acc)
termination_by xs _ _ _ => sizeOf xs

end

/-- `extractHeaders` applied to a string carrier: one header per character. -/
def ehChars : List Char → Nat → String → List String → List String
  | [], _, _, acc => acc
  | c :: cs, i, pre, acc => ehChars cs (i + 1) pre (ehVal pre (toString i) (.str ⟨[c]⟩) acc)

/-- Assignment into the CSV `values` record (later writes override). -/
def setStrField : List (String × String) → String → String → List (String × String)
  | [], k, v => [(k, v)]
  | (k0, v0) :: fs, k, v => if k0 = k then (k0, v) :: fs else (k0, v0) :: setStrField fs k v

def lookupStrField : List (String × String) → String → Option String
  | [], _ => none
  | (k0, v0) :: fs, k => if k0 = k then some v0 else lookupStrField fs k

mutual

/-- `convertToCSV.extractValues`, one entry. -/
def evVal (pre key : String) (value : JVal) (acc : List (String × String)) :
    List (String × String) :=
  let header := if pre = "" then key else pre ++ "." ++ key
  match value with
  | .arr xs => evItems xs 0 header (setStrField acc (header ++ "_count") ⟨decChars xs.length⟩)
  | .obj fs => evEntries fs header acc
  | v => setStrField acc header (jsString v)
termination_by sizeOf value

def evEntries : List (String × JVal) → String → List (String × String) → List (String × String)
  | [], _, acc => acc
  | (k, v) :: es, pre, acc => evEntries es pre (evVal pre k v acc)
termination_by es => sizeOf es

def evItems : List JVal → Nat → String → List (String × String) → List (String × String)
  | [], _, _, acc => acc
  | x :: xs, i, header, acc =>
    let acc2 :=
      match x with
      | .obj fs => evEntries fs (header ++ "[" ++ toString i ++ "]") acc
      | .arr ys => evIdx ys 0 (header ++ "[" ++ toString i ++ "]") acc
      | _ => acc
    evItems xs (i + 1) header acc2
termination_by xs _ _ _ => sizeOf xs

def evIdx : List JVal → Nat → String → List (String × String) → List (String × String)
  | [], _, _, acc => acc
  | x :: xs, i, pre, acc => evIdx xs (i + 1) pre (evVal pre (toString i) x acc)
termination_by xs _ _ _ => sizeOf xs

end

def evChars : List Char → Nat → String → List (String × String) → List (String × String)
  | [], _, _, acc => acc
  | c :: cs, i, pre, acc => evChars cs (i + 1) pre (evVal pre (toString i) (.str ⟨[c]⟩) acc)

def csvHeaders (data : JVal) : List String :=
  match data with
  | .obj fs => ehEntries fs "" []
  | .arr xs => ehIdx xs 0 "" []
  | .str s => ehChars s.data 0 "" []
  | _ => []

def csvValues (data : JVal) : List (String × String) :=
  match data with
  | .obj fs => evEntries fs "" []
  | .arr xs => evIdx xs 0 "" []
  | .str s => evChars s.data 0 "" []
  | _ => []

/-- `value.replace(/"/g, '""')`. -/
def dupQuotes : List Char → List Char
  | [] => []
  | c :: cs => if c = '"' then '"' :: '"' :: dupQuotes cs else c :: dupQuotes cs

def joinComma : List String → String
  | [] => ""
  | [x] => x
  | x :: xs => x ++ "," ++ joinComma xs

/-- `DataManager.convertToCSV(data)`: a header row and one value row. -/
def convertToCSV (data : JVal) : String :=
  let headers := csvHeaders data
  let values := csvValues data
  let row := headers.map (fun h =>
    match lookupStrField values h with
    | some v => "\"" ++ String.mk (dupQuotes v.data) ++ "\""
    | none => "")
  joinComma headers ++ "\n" ++ joinComma row

/-- The result record of `DataManager.exportData`. -/
structure ExportResult where
  content : String
  filename : String
  mimeType : String

/-- `DataManager.exportData(currentSchema, format)`.  The wall-clock timestamp
`new Date().toISOString()` is passed in as `ts`. -/
def exportData (st : Store) (schema : String) (format : String) (ts : String) :
    Except String ExportResult :=
  let data := getFormDataForSchema st schema
  if !data.truthy || keysCount data == 0 then .error "No data to export"
  else
    let exportObj : JVal := .obj
      [("timestamp", .str ts), ("workflow_name", .str schema), ("form_data", data)]
    if toLowerStr format = "json" then
      .ok ⟨jsonStringify exportObj,
        schema ++ "-data-" ++ datePart ts ++ ".json", "application/json"⟩
    else if toLowerStr format = "csv" then
      .ok ⟨convertToCSV data,
        schema ++ "-data-" ++ datePart ts ++ ".csv", "text/csv"⟩
    else .error ("Unsupported export format: " ++ format)

/-- `{...a, ...b}`: spread-merge, later keys overriding. -/
def spreadMerge (a b : JVal) : List (String × JVal) :=
  (spread b).foldl (fun acc kv => setField acc kv.1 kv.2) (spread a)

/-- The `typeof importedData === 'string'` block of `importData`: a string
goes through `JSON.parse`, whose rejection is rethrown as
`Invalid JSON format`; every other value is passed on unchanged. -/
def parsePayload (input : JVal) : Except String JVal :=
  match input with
  | .str t =>
    match jsonParse t with
    | some v => .ok v
    | none => .error "Invalid JSON format"
  | v => .ok v

/-- The `if (dataToImport.form_data) dataToImport = dataToImport.form_data`
step: the export wrapper is unwrapped when its `form_data` field is truthy. -/
def unwrapFormData (d : JVal) : JVal :=
  match jget d "form_data" with
  | some fv => if fv.truthy then fv else d
  | none => d

/-- Null test for the payload: the `form_data` probe on a null
`dataToImport` throws a `TypeError`. -/
def JVal.isNull : JVal → Bool
  | .null => true
  | _ => false

/-- The `merge` branch seeds a falsy slot with `{}` before spreading. -/
def mergeBase (st : Store) (schema : String) : Store :=
  if truthyOpt (lookupField st schema) then st else setField st schema (.obj [])

/-- The current slot value the `merge` branch spreads first. -/
def mergeCur (st : Store) (schema : String) : JVal :=
  (lookupField (mergeBase st schema) schema).getD .null

/-- `DataManager.importData(currentSchema, importedData, mergeStrategy)`.
Strings are `JSON.parse`d ("Invalid JSON format" on failure); a payload that
parses to JSON `null` makes `dataToImport.form_data` throw a `TypeError`,
which `importData` does not catch. -/
def importData (st : Store) (schema : String) (input : JVal) (strategy : String) :
    Except String Store :=
  if input.truthy = false then .error "No data provided for import"
  else
    match parsePayload input with
    | .error e => .error e
    | .ok d0 =>
      if d0.isNull then .error "TypeError: cannot read form_data of null"
      else
        if strategy = "replace" then
          .ok (setField st schema (.obj (spread (unwrapFormData d0))))
        else if strategy = "merge" then
          .ok (setField (mergeBase st schema) schema
            (.obj (spreadMerge (mergeCur st schema) (unwrapFormData d0))))
        else .error ("Unsupported merge strategy: " ++ strategy)

theorem lookupField_mergeBase_ne (st : Store) (schema s2 : String) (h : s2 ≠ schema) :
    lookupField (mergeBase st schema) s2 = lookupField st s2 := by
  unfold mergeBase
  split
  · rfl
  · rw [lookupField_setField_ne _ _ _ _ h]

/-- The outcome of the `fetch` call in `ArrayManager.fetchSchema`: a network
failure (rejected promise), or a response with an HTTP status and a body. -/
inductive FetchOutcome where
  | failure : FetchOutcome
  | success : Nat → String → FetchOutcome

/-- `Response.ok`: status in the 2xx range. -/
def responseOk (status : Nat) : Bool := 200 ≤ status && status < 300

/-- The try/catch body of `ArrayManager.fetchSchema`: any failure — rejected
fetch, non-ok response, unparseable body — is caught and rethrown as
`Schema fetch failed`. -/
def fetchSchemaNet (cache : Store) (name : String) (outcome : FetchOutcome) :
    Except String (JVal × Store) :=
  match outcome with
  | .failure => .error ("Schema fetch failed: " ++ name)
  | .success status body =>
    if responseOk status = false then .error ("Schema fetch failed: " ++ name)
    else
      match jsonParse body with
      | none => .error ("Schema fetch failed: " ++ name)
      | some schema => .ok (schema, setField cache name schema)

/-- `ArrayManager.fetchSchema(workflowName)`: serve a truthy cache entry,
otherwise fetch, parse and cache. -/
def fetchSchema (cache : Store) (name : String) (outcome : FetchOutcome) :
    Except String (JVal × Store) :=
  match lookupField cache name with
  | some v =>
    if v.truthy then .ok (v, cache)
    else fetchSchemaNet cache name outcome
  | none => fetchSchemaNet cache name outcome

/-- C5: exporting a non-empty stored tree as JSON and re-importing the
produced content with the replace strategy restores a tree deep-equal to the
original. -/
theorem export_import_roundtrip (st : Store) (schema ts : String)
    (fs : List (String × JVal))
    (h1 : lookupField st schema = some (.obj fs)) (h2 : fs ≠ []) :
    ∃ res, exportData st schema "json" ts = .ok res ∧
      ∃ st', importData st schema (.str res.content) "replace" = .ok st' ∧
        lookupField st' schema = some (.obj fs) ∧
        getFormDataForSchema st' schema = .obj fs := by
  have hdata : getFormDataForSchema st schema = .obj fs := by
    simp [getFormDataForSchema, h1]
  have hlen : fs.length ≠ 0 := fun h => h2 (List.length_eq_zero.mp h)
  have hfmt : toLowerStr "json" = "json" := rfl
  have hexp : exportData st schema "json" ts
      = .ok ⟨jsonStringify (.obj [("timestamp", .str ts), ("workflow_name", .str schema),
          ("form_data", .obj fs)]),
        schema ++ "-data-" ++ datePart ts ++ ".json", "application/json"⟩ := by
    simp [exportData, hdata, keysCount, hlen, hfmt]
  have hp : jprint (.obj (("timestamp", JVal.str ts) :: ("workflow_name", JVal.str schema) ::
      [("form_data", JVal.obj fs)]))
      = '{' :: (jprintPairs ("timestamp", JVal.str ts)
          [("workflow_name", JVal.str schema), ("form_data", JVal.obj fs)] ++ ['}']) := by
    simp [jprint]
  have hne : jsonStringify (.obj [("timestamp", .str ts), ("workflow_name", .str schema),
      ("form_data", .obj fs)]) ≠ "" := by
    simp [jsonStringify, hp, String.ext_iff]
  have hinput : (JVal.str (jsonStringify (.obj [("timestamp", .str ts),
      ("workflow_name", .str schema), ("form_data", .obj fs)]))).truthy = true := by
    simp [JVal.truthy, bne_iff_ne, hne]
  have hparse := jsonParse_stringify (.obj [("timestamp", .str ts),
    ("workflow_name", .str schema), ("form_data", .obj fs)])
  have hget : jget (.obj [("timestamp", JVal.str ts), ("workflow_name", JVal.str schema),
      ("form_data", JVal.obj fs)]) "form_data" = some (.obj fs) := rfl
  have himp : importData st schema (.str (jsonStringify (.obj [("timestamp", .str ts),
      ("workflow_name", .str schema), ("form_data", .obj fs)]))) "replace"
      = .ok (setField st schema (.obj fs)) := by
    simp [importData, parsePayload, hinput, hparse, hget, unwrapFormData,
      JVal.isNull, spread]
  refine ⟨_, hexp, setField st schema (.obj fs), himp, lookupField_setField_self _ _ _, ?_⟩
  simp [getFormDataForSchema, lookupField_setField_self]

theorem export_import_roundtrip_witness :
    ∃ res, exportData [("wf", JVal.obj [("a", JVal.num 1)])] "wf" "json"
        "2026-01-01T00:00:00Z" = .ok res ∧
      ∃ st', importData [("wf", JVal.obj [("a", JVal.num 1)])] "wf"
          (.str res.content) "replace" = .ok st' ∧
        lookupField st' "wf" = some (.obj [("a", JVal.num 1)]) ∧
        getFormDataForSchema st' "wf" = .obj [("a", JVal.num 1)] :=
  export_import_roundtrip [("wf", JVal.obj [("a", JVal.num 1)])] "wf"
    "2026-01-01T00:00:00Z" [("a", JVal.num 1)] rfl (by simp)

/-- C9 counterexample to the claim as stated: the input `false` is neither
null/undefined, nor a string, nor accompanied by a bad merge strategy, so the
claim says this import updates the schema's tree, but the code's initial
falsiness guard throws. -/
theorem importData_falsy_input_throws :
    importData [] "wf" (.bool false) "replace" = .error "No data provided for import" := rfl

/-- C9 (amended): a complete case analysis of `importData`.  It throws —
leaving the store untouched, no mutation preceding any `throw` in the
source — exactly on falsy input (null, undefined, `false`, `0`, the empty
string), on a truthy string `JSON.parse` rejects, on a payload parsing to
JSON `null` (the `form_data` probe throws a `TypeError`), and on a merge
strategy other than `replace` and `merge`; in every remaining case it
succeeds, rewriting the given schema's slot and leaving every other slot
unchanged — for a non-string payload the slot receives exactly the spread
of the unwrapped payload. -/
theorem importData_cases (st : Store) (schema : String) (input : JVal) (strategy : String) :
    (input.truthy = false → importData st schema input strategy
        = .error "No data provided for import") ∧
    (∀ t, input = .str t → input.truthy = true → jsonParse t = none →
      importData st schema input strategy = .error "Invalid JSON format") ∧
    (input.truthy = true → parsePayload input = .ok .null →
      importData st schema input strategy
        = .error "TypeError: cannot read form_data of null") ∧
    (∀ v, input.truthy = true → parsePayload input = .ok v → v ≠ .null →
      (strategy = "replace" →
        ∃ d, importData st schema input strategy = .ok (setField st schema (.obj d))) ∧
      (strategy = "merge" →
        ∃ d, importData st schema input strategy
          = .ok (setField (mergeBase st schema) schema (.obj d))) ∧
      (strategy ≠ "replace" → strategy ≠ "merge" →
        importData st schema input strategy
          = .error ("Unsupported merge strategy: " ++ strategy))) ∧
    ((∀ t, input ≠ .str t) → input.truthy = true → strategy = "replace" →
      importData st schema input strategy
        = .ok (setField st schema (.obj (spread (unwrapFormData input))))) ∧
    ((∀ t, input ≠ .str t) → input.truthy = true → strategy = "merge" →
      importData st schema input strategy
        = .ok (setField (mergeBase st schema) schema
            (.obj (spreadMerge (mergeCur st schema) (unwrapFormData input))))) ∧
    (∀ st', importData st schema input strategy = .ok st' →
      ∀ s2, s2 ≠ schema → lookupField st' s2 = lookupField st s2) := by
  have hppid : (∀ t, input ≠ .str t) → parsePayload input = .ok input := by
    intro hns
    cases input with
    | str t => exact absurd rfl (hns t)
    | null => rfl
    | bool b => rfl
    | num i => rfl
    | arr xs => rfl
    | obj ms => rfl
  have hnn : input.truthy = true → input.isNull = false := by
    intro htr
    cases input with
    | null => simp [JVal.truthy] at htr
    | bool b => rfl
    | num i => rfl
    | str t => rfl
    | arr xs => rfl
    | obj ms => rfl
  refine ⟨?_, ?_, ?_, ?_, ?_, ?_, ?_⟩
  · intro h
    simp [importData, h]
  · rintro t rfl htr hp
    simp [importData, parsePayload, htr, hp]
  · intro htr hpv
    simp [importData, htr, hpv, JVal.isNull]
  · intro v htr hpv hvn
    have hnull : v.isNull = false := by
      cases v with
      | null => exact absurd rfl hvn
      | bool b => rfl
      | num i => rfl
      | str t => rfl
      | arr xs => rfl
      | obj ms => rfl
    refine ⟨?_, ?_, ?_⟩
    · intro hrep
      exact ⟨spread (unwrapFormData v), by simp [importData, htr, hpv, hnull, hrep]⟩
    · intro hmer
      have hne : strategy ≠ "replace" := by
        rw [hmer]; decide
      exact ⟨spreadMerge (mergeCur st schema) (unwrapFormData v),
        by simp [importData, htr, hpv, hnull, hmer, hne]⟩
    · intro h1 h2
      simp [importData, htr, hpv, hnull, h1, h2]
  · intro hns htr hrep
    simp [importData, htr, hppid hns, hnn htr, hrep]
  · intro hns htr hmer
    have hne : strategy ≠ "replace" := by
      rw [hmer]; decide
    simp [importData, htr, hppid hns, hnn htr, hmer, hne]
  · intro st' hok s2 hs2
    unfold importData at hok
    repeat' split at hok
    all_goals try simp at hok
    all_goals first
      | subst hok
      | (injection hok with hok; subst hok)
    all_goals rw [lookupField_setField_ne _ _ _ _ hs2]
    all_goals rw [lookupField_mergeBase_ne st schema s2 hs2]

theorem importData_cases_witness :
    importData [("other", JVal.obj [("x", JVal.num 5)])] "wf"
        (JVal.obj [("a", JVal.num 1)]) "replace"
      = .ok (setField [("other", JVal.obj [("x", JVal.num 5)])] "wf"
          (.obj (spread (unwrapFormData (JVal.obj [("a", JVal.num 1)]))))) :=
  (importData_cases [("other", JVal.obj [("x", JVal.num 5)])] "wf"
      (JVal.obj [("a", JVal.num 1)]) "replace").2.2.2.2.1
    (fun t h => JVal.noConfusion h) rfl rfl

/-- C8: for a workflow name with no cache entry, `fetchSchema` rejects exactly
when the fetch fails or the HTTP response is non-2xx (assuming 2xx responses
carry a parseable JSON body, since a body `.json()` cannot decode is also
rethrown as a fetch failure), and on a 2xx response it returns the parsed
schema and caches it; a non-2xx response is never returned as a schema. -/
theorem fetchSchema_http (cache : Store) (name : String) (outcome : FetchOutcome)
    (hmiss : lookupField cache name = none)
    (hbody : ∀ status body, outcome = .success status body → responseOk status = true →
      ∃ v, jsonParse body = some v) :
    ((∃ e, fetchSchema cache name outcome = .error e) ↔
      (outcome = .failure ∨ ∃ status body, outcome = .success status body ∧
        responseOk status = false)) ∧
    (∀ status body, outcome = .success status body → responseOk status = true →
      ∃ v, jsonParse body = some v ∧
        fetchSchema cache name outcome = .ok (v, setField cache name v)) := by
  have hrun : fetchSchema cache name outcome = fetchSchemaNet cache name outcome := by
    simp [fetchSchema, hmiss]
  constructor
  · constructor
    · rintro ⟨e, he⟩
      cases outcome with
      | failure => exact Or.inl rfl
      | success status body =>
        refine Or.inr ⟨status, body, rfl, ?_⟩
        by_contra hbad
        have hok2 : responseOk status = true := by
          cases hb : responseOk status with
          | false => exact absurd hb hbad
          | true => rfl
        obtain ⟨v, hv⟩ := hbody status body rfl hok2
        rw [hrun] at he
        simp [fetchSchemaNet, hok2, hv] at he
    · rintro (rfl | ⟨status, body, rfl, hbad⟩)
      · exact ⟨"Schema fetch failed: " ++ name, by rw [hrun]; simp [fetchSchemaNet]⟩
      · exact ⟨"Schema fetch failed: " ++ name, by rw [hrun]; simp [fetchSchemaNet, hbad]⟩
  · intro status body heq hok2
    subst heq
    obtain ⟨v, hv⟩ := hbody status body rfl hok2
    exact ⟨v, hv, by rw [hrun]; simp [fetchSchemaNet, hok2, hv]⟩

theorem fetchSchema_http_witness :
    ∃ e, fetchSchema [] "wf" (.success 500 "oops") = .error e :=
  (fetchSchema_http [] "wf" (.success 500 "oops") rfl
    (fun status body h h2 => by
      cases h
      exact absurd h2 (by decide))).1.mpr
    (Or.inr ⟨500, "oops", rfl, by decide⟩)
